import Mathlib

/-!
Verification of the album-pi repository: a shallow embedding of its image
cache (`image_cache.py`), fetch/publish pipeline (`server_app.py`), retry
helper (`utils.py`) and render-side loader/loop (`display_app.py`),
together with proofs of the specified properties.

Modelling conventions:
* Python byte strings are `List Nat`; file contents live in an association
  list `FS` from paths to contents.
* The MD5 cache key of `image_cache._get_cache_key` is modelled by the
  lowercased search term itself (MD5 is injective for the purposes of the
  cache: two terms collide exactly when their lowercasings coincide).
* SQLite rows of the `cache` table are `CacheEntry` values; the table is a
  `List CacheEntry` (the UNIQUE constraint on `search_key` corresponds to
  key-distinctness hypotheses where they matter).
* `time.time()` values and mtimes are supplied as explicit arguments.
* Python float arithmetic on sizes (`max_size_bytes * 0.8`) is modelled
  exactly: `current <= max * 0.8` becomes `5 * current ≤ 4 * max`.
* Network calls and image decoding are external effects; their outcomes are
  fields of an environment record (`FetchEnv`).  The trace model of the
  fetch pipeline treats local file writes as succeeding and records the
  operations performed on the published paths (it settles the
  publish-mechanism properties); the `Fallible` model additionally carries
  outcomes for the local copy, temporary-file write/fsync and rename
  steps — whose exceptions the source catches into failure results — and
  tracks the published files' contents (it settles the failure-isolation
  property).
-/

namespace AlbumPi

/-- Python's `str.lower` on one character, for the ASCII range the claims
exercise (Lean's own `String.toLower` is defined by well-founded recursion
and does not evaluate inside the kernel). -/
def lowerChar (c : Char) : Char :=
  if 65 ≤ c.toNat ∧ c.toNat ≤ 90 then Char.ofNat (c.toNat + 32) else c

/-- Python's `str.lower` (ASCII). -/
def strLower (s : String) : String :=
  ⟨s.data.map lowerChar⟩

instance {ε α : Type} [DecidableEq ε] [DecidableEq α] :
    DecidableEq (Except ε α) := fun x y =>
  match x, y with
  | Except.ok a, Except.ok b =>
    if h : a = b then isTrue (by rw [h]) else isFalse (by simp [h])
  | Except.error a, Except.error b =>
    if h : a = b then isTrue (by rw [h]) else isFalse (by simp [h])
  | Except.ok _, Except.error _ => isFalse (by simp)
  | Except.error _, Except.ok _ => isFalse (by simp)

/-- A file system: association list from path to byte content.  The first
binding for a path wins. -/
abbrev FS := List (String × List Nat)

/-- Remove every binding for path `p`. -/
def fsRemove (fs : FS) (p : String) : FS :=
  fs.filter (fun e => e.1 != p)

/-- Write content `c` at path `p`, replacing any previous binding. -/
def fsWrite (fs : FS) (p : String) (c : List Nat) : FS :=
  (p, c) :: fsRemove fs p

/-- Content stored at path `p`, if the file exists. -/
def fsLookup (fs : FS) (p : String) : Option (List Nat) :=
  (fs.find? (fun e => e.1 == p)).map (fun e => e.2)

/-- `os.path.exists` on the modelled file system. -/
def fsExists (fs : FS) (p : String) : Bool :=
  (fsLookup fs p).isSome

namespace ImageCache

/-- The constructor arguments of `ImageCache` that the operations read:
`self.cache_dir` and `self.max_size_bytes`. -/
structure Config where
  cache_dir : String
  max_size_bytes : Nat
deriving DecidableEq

/-- One row of the SQLite `cache` table. -/
structure CacheEntry where
  search_key : String
  file_path : String
  metadata : String
  artwork_url : String
  file_size : Nat
  created_at : Nat
  last_accessed : Nat
  access_count : Nat
deriving DecidableEq

/-- The persistent state an `ImageCache` instance manipulates: the rows of
the `cache` table plus the files of the cache directory. -/
structure CacheState where
  db : List CacheEntry
  files : FS
deriving DecidableEq

/-- The dictionary returned by `ImageCache.get` on a hit. -/
structure GetResult where
  file_path : String
  metadata : String
  artwork_url : String
deriving DecidableEq

/-- `_get_cache_key`: MD5 of the lowercased term, modelled by the
lowercased term itself (see the header comment). -/
def get_cache_key (search_term : String) : String :=
  strLower search_term

/-- `ImageCache.get`: look the key up; on a hit whose backing file exists,
bump `last_accessed`/`access_count` and return the row's visible fields; on
a hit whose file is gone, delete the stale row and return nothing. -/
def get (s : CacheState) (now : Nat) (search_term : String) :
    Option GetResult × CacheState :=
  let cache_key := get_cache_key search_term
  match s.db.find? (fun r => r.search_key == cache_key) with
  | none => (none, s)
  | some row =>
    if fsExists s.files row.file_path then
      (some { file_path := row.file_path, metadata := row.metadata,
              artwork_url := row.artwork_url },
       { s with db := s.db.map (fun r =>
           if r.search_key == cache_key then
             { r with last_accessed := now, access_count := r.access_count + 1 }
           else r) })
    else
      (none, { s with db := s.db.filter (fun r => r.search_key != cache_key) })

/-- `SELECT SUM(file_size) FROM cache`. -/
def get_total_size (db : List CacheEntry) : Nat :=
  (db.map (fun r => r.file_size)).sum

/-- Insert an entry into a list kept in ascending `last_accessed` order. -/
def insertByLA (e : CacheEntry) : List CacheEntry → List CacheEntry
  | [] => [e]
  | x :: xs =>
    if x.last_accessed ≤ e.last_accessed then x :: insertByLA e xs
    else e :: x :: xs

/-- `ORDER BY last_accessed ASC` on the table rows (insertion sort). -/
def sortByLA : List CacheEntry → List CacheEntry
  | [] => []
  | x :: xs => insertByLA x (sortByLA xs)

/-- The eviction loop of `_remove_least_recently_used`: walk the rows in
ascending `last_accessed` order; while `current_size` exceeds the 80%
target (`5 * current ≤ 4 * max` is exact arithmetic for
`current <= max * 0.8`), delete the backing file and drop the row,
decrementing `current_size` by the row's recorded size. -/
def evictLoop (max_size_bytes : Nat) :
    List CacheEntry → Int → FS → List CacheEntry × FS
  | [], _, fs => ([], fs)
  | e :: rest, current, fs =>
    if 5 * current ≤ 4 * (max_size_bytes : Int) then (e :: rest, fs)
    else evictLoop max_size_bytes rest (current - (e.file_size : Int))
      (fsRemove fs e.file_path)

/-- `_remove_least_recently_used`. -/
def remove_least_recently_used (cfg : Config) (s : CacheState) : CacheState :=
  let sorted := sortByLA s.db
  let kept := evictLoop cfg.max_size_bytes sorted
    (get_total_size s.db : Int) s.files
  { db := kept.1, files := kept.2 }

/-- `_cleanup_if_needed`: evict only when the total recorded size strictly
exceeds the configured maximum. -/
def cleanup_if_needed (cfg : Config) (s : CacheState) : CacheState :=
  if get_total_size s.db > cfg.max_size_bytes then
    remove_least_recently_used cfg s
  else s

/-- `ImageCache.put`: write the image file named by the key, upsert the row
(`INSERT OR REPLACE` with `access_count` coalesced from the prior row),
then run the cleanup pass.  Returns the file path and the new state. -/
def put (cfg : Config) (s : CacheState) (now : Nat) (search_term : String)
    (image_data : List Nat) (metadata artwork_url : String) :
    String × CacheState :=
  let cache_key := get_cache_key search_term
  let file_path := cfg.cache_dir ++ "/" ++ cache_key ++ ".jpg"
  let files1 := fsWrite s.files file_path image_data
  let prior :=
    ((s.db.find? (fun r => r.search_key == cache_key)).map
      (fun r => r.access_count)).getD 0
  let row : CacheEntry :=
    { search_key := cache_key, file_path := file_path, metadata := metadata,
      artwork_url := artwork_url, file_size := image_data.length,
      created_at := now, last_accessed := now, access_count := prior }
  let db1 := s.db.filter (fun r => r.search_key != cache_key) ++ [row]
  (file_path, cleanup_if_needed cfg { db := db1, files := files1 })

/-- The statistics record of `get_stats`, backed by `COUNT(*)`,
`SUM(file_size)` and `SUM(access_count)`. -/
structure Stats where
  entry_count : Nat
  total_size : Nat
  total_accesses : Nat
deriving DecidableEq

/-- `ImageCache.get_stats`. -/
def get_stats (s : CacheState) : Stats :=
  { entry_count := s.db.length,
    total_size := get_total_size s.db,
    total_accesses := (s.db.map (fun r => r.access_count)).sum }

/-- The `access_count` recorded for a key (0 when the key is absent, as in
the `COALESCE` of `put`). -/
def accessCountOf (db : List CacheEntry) (key : String) : Nat :=
  ((db.find? (fun r => r.search_key == key)).map
    (fun r => r.access_count)).getD 0

end ImageCache

/-! ### Fetch pipeline and atomic publisher (`server_app.py`)

The published "current" files are updated through a small set of file
operations; the pipeline is modelled as a function from an environment of
external outcomes (cache hit, API caches, provider results, download and
image-processing outcomes, the fresh temporary file names chosen by
`tempfile.NamedTemporaryFile`) to a result record plus the trace of file
operations it performs on the published locations. -/

/-- `IMAGE_PATH` of `server_app.py`. -/
def IMAGE_PATH : String := "current_album_art.jpg"

/-- `METADATA_PATH` of `server_app.py`. -/
def METADATA_PATH : String := "current_metadata.json"

/-- A file operation on the published locations.  `writeTemp` is a
temporary-file creation together with `write`, `flush` and `fsync` of the
full content; `rename` is `shutil.move` (an atomic rename on one file
system); `copyFile` is `shutil.copy`, which opens the destination and
writes into it in place. -/
inductive FileOp where
  | writeTemp (path : String) (content : List Nat)
  | rename (src dst : String)
  | copyFile (src dst : String)
deriving DecidableEq

/-- The result dictionary of the fetch pipeline (only the fields the
claims mention). -/
structure FetchResult where
  success : Bool
  message : String
deriving DecidableEq

/-- A provider search result: metadata record plus optional artwork URL. -/
structure ApiResult where
  metadata : String
  artwork_url : Option String
deriving DecidableEq

/-- The dictionary `image_cache.get` returns on a hit, as consumed by the
pipeline. -/
structure CacheHit where
  file_path : String
  metadata : String
  artwork_url : String
deriving DecidableEq

/-- Outcomes of all external effects one `fetch_and_save_album_art` call
can trigger.  `Except Unit _` outcomes model operations whose failures
surface as `requests.RequestException` (after the retry wrapper) or as
image-processing exceptions.  Local file operations always succeed in
this trace model; `Fallible.FetchEnv` refines it with their failure
outcomes. -/
structure FetchEnv where
  cacheHit : Option CacheHit
  apiCached : Option ApiResult
  spotify_enabled : Bool
  spotifyResult : Option ApiResult
  itunes_enabled : Bool
  itunesOutcome : Except Unit (Option ApiResult)
  downloadOutcome : Except Unit (List Nat)
  processOutcome : Except Unit (List Nat)
  tmpImage : String
  tmpMeta : String

/-- Serialization of the metadata record by `json.dump`. -/
def encodeMeta (md : String) : List Nat :=
  md.data.map (fun c => c.toNat)

/-- `save_image_atomic_from_bytes`: write the bytes to a fresh temporary
file (flushed and fsynced), then rename it over `IMAGE_PATH`. -/
def save_image_atomic_from_bytes (env : FetchEnv) (img_bytes : List Nat) :
    List FileOp :=
  [FileOp.writeTemp env.tmpImage img_bytes,
   FileOp.rename env.tmpImage IMAGE_PATH]

/-- `save_metadata_atomic`: write the serialized metadata to a fresh
temporary file (flushed and fsynced), then rename it over
`METADATA_PATH`. -/
def save_metadata_atomic (env : FetchEnv) (metadata : String) : List FileOp :=
  [FileOp.writeTemp env.tmpMeta (encodeMeta metadata),
   FileOp.rename env.tmpMeta METADATA_PATH]

/-- `download_and_save`: download (with retry), decode/convert/resize/
re-encode, store in the image cache, then publish image and metadata
atomically.  A download failure or processing failure returns a failure
result before any published-file operation. -/
def download_and_save (env : FetchEnv) (_artwork_url : String)
    (metadata : String) : FetchResult × List FileOp :=
  match env.downloadOutcome with
  | Except.error _ =>
    ({ success := false, message := "Failed to download artwork" }, [])
  | Except.ok _ =>
    match env.processOutcome with
    | Except.error _ =>
      ({ success := false, message := "Error processing artwork" }, [])
    | Except.ok img_bytes =>
      ({ success := true, message := "Successfully fetched and saved album art" },
       save_image_atomic_from_bytes env img_bytes ++
         save_metadata_atomic env metadata)

/-- `download_and_save_from_cache`: re-download from a cached API
response. -/
def download_and_save_from_cache (env : FetchEnv) (api : ApiResult) :
    FetchResult × List FileOp :=
  match api.artwork_url with
  | some url => download_and_save env url api.metadata
  | none =>
    ({ success := false, message := "Error saving cached content" }, [])

/-- `fetch_and_save_album_art`: image-cache hit copies the cached file
directly over `IMAGE_PATH` (`shutil.copy`) and publishes the metadata
atomically; otherwise the API-response cache, then Spotify, then iTunes
are consulted, and a chosen artwork URL goes through `download_and_save`.
Network failures surfacing from the providers yield a failure result. -/
def fetch_and_save_album_art (env : FetchEnv) (_search_term : String) :
    FetchResult × List FileOp :=
  match env.cacheHit with
  | some hit =>
    ({ success := true, message := "Loaded from cache" },
     FileOp.copyFile hit.file_path IMAGE_PATH ::
       save_metadata_atomic env hit.metadata)
  | none =>
    match env.apiCached with
    | some api => download_and_save_from_cache env api
    | none =>
      let result0 : Option ApiResult :=
        if env.spotify_enabled then env.spotifyResult else none
      match (match result0 with
             | some r => Except.ok (some r)
             | none =>
               if env.itunes_enabled then env.itunesOutcome
               else Except.ok none : Except Unit (Option ApiResult)) with
      | Except.error _ =>
        ({ success := false, message := "Network request failed" }, [])
      | Except.ok none =>
        ({ success := false, message := "No results found" }, [])
      | Except.ok (some r) =>
        match r.artwork_url with
        | none => ({ success := false, message := "No album art found" }, [])
        | some url => download_and_save env url r.metadata

/-- The claimed publication discipline for one target path: every
operation that updates `target` is a rename from a temporary file whose
full content was written (and fsynced) earlier in the trace; in
particular no direct write (`writeTemp` at the target) and no in-place
copy (`copyFile` to the target) ever touches it. -/
def atomicFor (target : String) : List String → List FileOp → Bool
  | _, [] => true
  | temps, FileOp.writeTemp p _ :: rest =>
    (p != target) && atomicFor target (p :: temps) rest
  | temps, FileOp.rename src dst :: rest =>
    ((dst != target) || temps.contains src) && atomicFor target temps rest
  | temps, FileOp.copyFile _ dst :: rest =>
    (dst != target) && atomicFor target temps rest

/-- Every update of `target` in the trace goes through
write-temp-then-rename. -/
def publishes_atomically (target : String) (ops : List FileOp) : Bool :=
  atomicFor target [] ops

namespace Fallible

/-! The fetch pipeline again, now with fallible local file operations:
the source wraps its body in `except` handlers that turn any raised step
— including `shutil.copy` and the publish helpers' temporary-file writes
and renames — into a failure result, keeping whatever was already
written.  This model tracks the published files' contents directly. -/

/-- Contents of the two published files (`none`: the file does not
exist). -/
structure PubFS where
  image : Option (List Nat)
  metadata : Option (List Nat)
deriving DecidableEq

/-- Outcomes of one `fetch_and_save_album_art` call's external effects,
refining the trace model's environment with the failure outcomes of the
local file operations whose exceptions the source catches into failure
results: the cache-hit branch's `shutil.copy` (`copyOutcome`; an error
carries the bytes left in the destination, since the copy writes the
target in place), the temporary-file write+flush+fsync and the rename of
each publish helper, and the cache store's `put`. -/
structure FetchEnv where
  cacheHit : Option CacheHit
  apiCached : Option ApiResult
  spotify_enabled : Bool
  spotifyResult : Option ApiResult
  itunes_enabled : Bool
  itunesOutcome : Except Unit (Option ApiResult)
  downloadOutcome : Except Unit (List Nat)
  processOutcome : Except Unit (List Nat)
  cachePutOutcome : Except Unit Unit
  copyOutcome : Except (List Nat) (List Nat)
  tmpImageWrite : Except Unit Unit
  renameImage : Except Unit Unit
  tmpMetaWrite : Except Unit Unit
  renameMeta : Except Unit Unit

/-- `save_image_atomic_from_bytes` over published contents: a failing
temporary write/fsync or a failing rename raises without touching the
target (the rename is atomic); on success the target holds exactly the
new bytes. -/
def save_image_atomic_from_bytes (env : FetchEnv) (img_bytes : List Nat)
    (fs : PubFS) : Except Unit PubFS :=
  match env.tmpImageWrite with
  | Except.error _ => Except.error ()
  | Except.ok _ =>
    match env.renameImage with
    | Except.error _ => Except.error ()
    | Except.ok _ => Except.ok { fs with image := some img_bytes }

/-- `save_metadata_atomic` over published contents. -/
def save_metadata_atomic (env : FetchEnv) (metadata : String)
    (fs : PubFS) : Except Unit PubFS :=
  match env.tmpMetaWrite with
  | Except.error _ => Except.error ()
  | Except.ok _ =>
    match env.renameMeta with
    | Except.error _ => Except.error ()
    | Except.ok _ =>
      Except.ok { fs with metadata := some (encodeMeta metadata) }

/-- `download_and_save` over published contents: its `except` handlers
turn any raised step into a failure result keeping whatever was already
published — in particular a metadata-publish failure is reported after
the image was already renamed into place. -/
def download_and_save (env : FetchEnv) (_artwork_url : String)
    (metadata : String) (fs : PubFS) : FetchResult × PubFS :=
  match env.downloadOutcome with
  | Except.error _ =>
    ({ success := false, message := "Failed to download artwork" }, fs)
  | Except.ok _ =>
    match env.processOutcome with
    | Except.error _ =>
      ({ success := false, message := "Error processing artwork" }, fs)
    | Except.ok img_bytes =>
      match env.cachePutOutcome with
      | Except.error _ =>
        ({ success := false, message := "Error processing artwork" }, fs)
      | Except.ok _ =>
        match save_image_atomic_from_bytes env img_bytes fs with
        | Except.error _ =>
          ({ success := false, message := "Error processing artwork" }, fs)
        | Except.ok fs1 =>
          match save_metadata_atomic env metadata fs1 with
          | Except.error _ =>
            ({ success := false, message := "Error processing artwork" },
             fs1)
          | Except.ok fs2 =>
            ({ success := true,
               message := "Successfully fetched and saved album art" },
             fs2)

/-- `download_and_save_from_cache` over published contents. -/
def download_and_save_from_cache (env : FetchEnv) (api : ApiResult)
    (fs : PubFS) : FetchResult × PubFS :=
  match api.artwork_url with
  | some url => download_and_save env url api.metadata fs
  | none =>
    ({ success := false, message := "Error saving cached content" }, fs)

/-- `fetch_and_save_album_art` over published contents: the cache-hit
branch performs the in-place `shutil.copy` (a mid-write failure leaves
the bytes it wrote in `current_album_art.jpg`) before publishing the
metadata; the top-level `except` turns any raised step into a failure
result keeping whatever the branch already wrote. -/
def fetch_and_save_album_art (env : FetchEnv) (fs : PubFS)
    (_search_term : String) : FetchResult × PubFS :=
  match env.cacheHit with
  | some hit =>
    match env.copyOutcome with
    | Except.error writtenBytes =>
      ({ success := false, message := "Unexpected error" },
       { fs with image := some writtenBytes })
    | Except.ok content =>
      match save_metadata_atomic env hit.metadata
          { fs with image := some content } with
      | Except.error _ =>
        ({ success := false, message := "Unexpected error" },
         { fs with image := some content })
      | Except.ok fs2 =>
        ({ success := true, message := "Loaded from cache" }, fs2)
  | none =>
    match env.apiCached with
    | some api => download_and_save_from_cache env api fs
    | none =>
      let result0 : Option ApiResult :=
        if env.spotify_enabled then env.spotifyResult else none
      match (match result0 with
             | some r => Except.ok (some r)
             | none =>
               if env.itunes_enabled then env.itunesOutcome
               else Except.ok none : Except Unit (Option ApiResult)) with
      | Except.error _ =>
        ({ success := false, message := "Network request failed" }, fs)
      | Except.ok none =>
        ({ success := false, message := "No results found" }, fs)
      | Except.ok (some r) =>
        match r.artwork_url with
        | none => ({ success := false, message := "No album art found" }, fs)
        | some url => download_and_save env url r.metadata fs

end Fallible

/-! ### iTunes match scoring (`server_app.py`) -/

/-- Substring test on character lists: Python's `needle in hay`. -/
def containsSub (hay needle : List Char) : Bool :=
  if needle.isPrefixOf hay then true
  else
    match hay with
    | [] => false
    | _ :: t => containsSub t needle

/-- Python's `a in b` on strings: `a` occurs contiguously in `b`. -/
def pyIn (needle hay : String) : Bool :=
  containsSub hay.data needle.data

/-- One iTunes search result, restricted to the fields the scorer reads
(`result.get` with default `''`; a missing `artworkUrl100` is the empty
string, which is falsy in Python). -/
structure ITunesResult where
  trackName : String
  artistName : String
  collectionName : String
  artworkUrl100 : String
deriving DecidableEq

/-- The score `find_best_itunes_match` assigns one candidate: 100 for an
exact (lowercased) title or "artist title" match, else 50 for a title
substring overlap in either direction; plus 30 for artist overlap, 20 for
album overlap, 10 for a present `artworkUrl100`. -/
def scoreResult (search_lower : String) (r : ITunesResult) : Nat :=
  let track_name := strLower r.trackName
  let artist_name := strLower r.artistName
  let album_name := strLower r.collectionName
  let base :=
    if search_lower == track_name ||
        search_lower == artist_name ++ " " ++ track_name then 100
    else if pyIn search_lower track_name || pyIn track_name search_lower then 50
    else 0
  let artist_pts :=
    if pyIn search_lower artist_name || pyIn artist_name search_lower then 30
    else 0
  let album_pts :=
    if pyIn search_lower album_name || pyIn album_name search_lower then 20
    else 0
  let art_pts := if r.artworkUrl100 != "" then 10 else 0
  base + artist_pts + album_pts + art_pts

/-- Python `max(..., key=...)`: fold that replaces the running best only
on a strictly greater key, so the first maximal element wins. -/
def pickBest (best : Nat × ITunesResult) :
    List (Nat × ITunesResult) → Nat × ITunesResult
  | [] => best
  | y :: ys => pickBest (if y.1 > best.1 then y else best) ys

/-- `find_best_itunes_match`: score every candidate and return the first
one attaining the maximal score (`max` over the scored list).  Python
`max` raises on an empty sequence; the pipeline only calls this with a
non-empty result list, modelled by the `Option`. -/
def find_best_itunes_match (results : List ITunesResult)
    (search_term : String) : Option ITunesResult :=
  let search_lower := strLower search_term
  match results.map (fun r => (scoreResult search_lower r, r)) with
  | [] => none
  | x :: xs => some (pickBest x xs).2

/-! ### Retry executor (`utils.py`) -/

/-- The loop body of `retry_with_backoff`: `attempt` is the 0-based index
of the next call, `remaining` the number of attempts left, `delay` the
current sleep length, `sleeps` the sleeps performed so far.  The result is
`none` when the loop exhausts without running (Python falls through to
`return None`, only possible with `max_attempts = 0`); otherwise the
operation's success or the re-raised last failure, paired with the list of
sleeps performed. -/
def retryLoop (op : Nat → Except ε α) (exponential : Bool) :
    Nat → Nat → ℚ → List ℚ → Option (Except ε α) × List ℚ
  | _, 0, _, sleeps => (none, sleeps)
  | attempt, remaining + 1, delay, sleeps =>
    match op attempt with
    | Except.ok a => (some (Except.ok a), sleeps)
    | Except.error e =>
      if remaining = 0 then (some (Except.error e), sleeps)
      else
        retryLoop op exponential (attempt + 1) remaining
          (if exponential then delay * 2 else delay) (sleeps ++ [delay])

/-- `retry_with_backoff` applied to an operation whose outcome on the
`i`-th invocation is `op i`: run up to `max_attempts` attempts, sleeping
`delay` after each retryable failure that is not the last attempt and
doubling the delay when `exponential`. -/
def retry_with_backoff (max_attempts : Nat) (initial_delay : ℚ)
    (exponential : Bool) (op : Nat → Except ε α) :
    Option (Except ε α) × List ℚ :=
  retryLoop op exponential 0 max_attempts initial_delay []

/-! ### Render side (`display_app.py`) -/

/-- The mutable state of an `ImageLoader`: the hand-off `queue.Queue()`
(an unbounded FIFO, head = oldest) and the last observed image mtime. -/
structure LoaderState (α : Type) where
  queue : List α
  last_image_mtime : Int
deriving DecidableEq

namespace ImageLoader

/-- `ImageLoader.get_new_content`: `queue.get_nowait()`, returning `none`
on an empty queue. -/
def get_new_content (s : LoaderState α) : Option α × LoaderState α :=
  match s.queue with
  | [] => (none, s)
  | x :: xs => (some x, { s with queue := xs })

/-- One iteration of `_monitor_files`: `mtime` is the published image's
modification time (`none` when the file does not exist) and `load` the
decoded content (`none` when loading raised).  On a strictly newer mtime
the loader records it and, when loading succeeded, `put`s the content —
appending to the queue, never replacing anything. -/
def monitor_once (s : LoaderState α) (mtime : Option Int) (load : Option α) :
    LoaderState α :=
  match mtime with
  | none => s
  | some m =>
    if s.last_image_mtime < m then
      match load with
      | some c => { last_image_mtime := m, queue := s.queue ++ [c] }
      | none => { s with last_image_mtime := m }
    else s

end ImageLoader

/-- The state the render loop threads through one frame: the loader
queue it polls, the transition manager's `is_transitioning` flag and
`next_image`, and the loop's `current_image`. -/
structure RenderState (α : Type) where
  queue : List α
  is_transitioning : Bool
  current_image : α
  next_image : Option α
deriving DecidableEq

/-- One frame of `run_display`'s content handling: poll the loader
(`get_new_content`); if content arrived and no transition is in flight,
start a transition to it; content polled while transitioning is simply
discarded (returned as the second component).  Afterwards, when the
running transition completes this frame (`completes`), the next image
becomes current and the state returns to idle. -/
def run_display_step (s : RenderState α) (completes : Bool) :
    RenderState α × Option α :=
  let step1 : RenderState α × Option α :=
    match s.queue with
    | [] => (s, none)
    | c :: rest =>
      if s.is_transitioning then ({ s with queue := rest }, some c)
      else
        ({ s with queue := rest, is_transitioning := true,
                  next_image := some c }, none)
  let s1 := step1.1
  if s1.is_transitioning && completes then
    ({ s1 with is_transitioning := false,
               current_image := s1.next_image.getD s1.current_image },
     step1.2)
  else (s1, step1.2)

/-- `get_display_status` of `display_app.py`: read the status file,
strip and upper-case it; a missing file reads as `RUNNING`. -/
def get_display_status (statusFile : Option String) : String :=
  match statusFile with
  | some content => content.trim.toUpper
  | none => "RUNNING"

/-- The JSON body of the server's `/status` endpoint. -/
structure StatusResponse where
  success : Bool
  status : Option String
  message : Option String
deriving DecidableEq

/-- `get_status` of `server_app.py` (`/status`): when the status file
exists its stripped content is reported, otherwise status `RUNNING`;
both with `success = true`. -/
def get_status (statusFile : Option String) : StatusResponse :=
  match statusFile with
  | some content =>
    { success := true, status := some content.trim, message := none }
  | none =>
    { success := true, status := some "RUNNING", message := none }

/-! ### Concrete sample data used by witnesses and counterexamples -/

/-- iTunes candidate titled like the album but not the query. -/
def darkSideMoon : ITunesResult := ⟨"Dark Side of the Moon", "ab", "ef", ""⟩

/-- iTunes candidate whose title is exactly the query. -/
def darkSideExact : ITunesResult := ⟨"Dark Side", "cd", "gh", ""⟩

/-- Operation that fails on its first three invocations and then
succeeds. -/
def retryOp3 : Nat → Except Nat Nat :=
  fun i => if i < 3 then Except.error i else Except.ok 42

/-- Fetch environment with an image-cache hit. -/
def envCacheHit : FetchEnv :=
  { cacheHit := some ⟨"image_cache/k.jpg", "md", "u"⟩, apiCached := none,
    spotify_enabled := false, spotifyResult := none, itunes_enabled := true,
    itunesOutcome := Except.ok none, downloadOutcome := Except.ok [7],
    processOutcome := Except.ok [9], tmpImage := "tmpA", tmpMeta := "tmpB" }

/-- Fetch environment with no cache hit and a successful iTunes search,
download and processing. -/
def envDownload : FetchEnv :=
  { cacheHit := none, apiCached := none,
    spotify_enabled := false, spotifyResult := none, itunes_enabled := true,
    itunesOutcome := Except.ok (some ⟨"md2", some "http:cdn/a.jpg"⟩),
    downloadOutcome := Except.ok [7], processOutcome := Except.ok [9],
    tmpImage := "tmpA", tmpMeta := "tmpB" }

/-- Fallible fetch environment: cache miss, successful search, download,
processing, cache store and image publish, but the metadata
temporary-file write fails. -/
def envMetaFail : Fallible.FetchEnv :=
  { cacheHit := none, apiCached := none,
    spotify_enabled := false, spotifyResult := none, itunes_enabled := true,
    itunesOutcome := Except.ok (some ⟨"md2", some "http:cdn/a.jpg"⟩),
    downloadOutcome := Except.ok [7], processOutcome := Except.ok [9],
    cachePutOutcome := Except.ok (), copyOutcome := Except.ok [],
    tmpImageWrite := Except.ok (), renameImage := Except.ok (),
    tmpMetaWrite := Except.error (), renameMeta := Except.ok () }

/-- Fallible fetch environment: a cache hit whose in-place copy fails
after writing a single byte to the published image. -/
def envCopyFail : Fallible.FetchEnv :=
  { cacheHit := some ⟨"image_cache/k.jpg", "md", "u"⟩, apiCached := none,
    spotify_enabled := false, spotifyResult := none, itunes_enabled := true,
    itunesOutcome := Except.ok none, downloadOutcome := Except.ok [7],
    processOutcome := Except.ok [9], cachePutOutcome := Except.ok (),
    copyOutcome := Except.error [5], tmpImageWrite := Except.ok (),
    renameImage := Except.ok (), tmpMetaWrite := Except.ok (),
    renameMeta := Except.ok () }

/-- Fallible fetch environment in which every source comes up empty, so
the pipeline fails with no results before any publish step. -/
def envNoResultsF : Fallible.FetchEnv :=
  { cacheHit := none, apiCached := none, spotify_enabled := false,
    spotifyResult := none, itunes_enabled := true,
    itunesOutcome := Except.ok none, downloadOutcome := Except.ok [7],
    processOutcome := Except.ok [9], cachePutOutcome := Except.ok (),
    copyOutcome := Except.ok [], tmpImageWrite := Except.ok (),
    renameImage := Except.ok (), tmpMetaWrite := Except.ok (),
    renameMeta := Except.ok () }

/-- Sample cache configuration. -/
def cfgSmall : ImageCache.Config := ⟨"image_cache", 10⟩

/-- Old cache entry (least recently accessed). -/
def entryOld : ImageCache.CacheEntry :=
  { search_key := "a", file_path := "image_cache/a.jpg", metadata := "ma",
    artwork_url := "ua", file_size := 6, created_at := 1, last_accessed := 1,
    access_count := 2 }

/-- Recent cache entry (most recently accessed). -/
def entryNew : ImageCache.CacheEntry :=
  { search_key := "b", file_path := "image_cache/b.jpg", metadata := "mb",
    artwork_url := "ub", file_size := 6, created_at := 2, last_accessed := 2,
    access_count := 1 }

/-- Cache state over budget: two 6-byte entries against a 10-byte cap. -/
def stOverBudget : ImageCache.CacheState :=
  { db := [entryOld, entryNew],
    files := [("image_cache/a.jpg", [1, 1, 1, 1, 1, 1]),
              ("image_cache/b.jpg", [2, 2, 2, 2, 2, 2])] }

/-- Cache state whose entry for key `a` has lost its backing file (only
`b`'s file is on disk). -/
def stStale : ImageCache.CacheState :=
  { db := [entryOld, entryNew],
    files := [("image_cache/b.jpg", [2, 2, 2, 2, 2, 2])] }

/-- Cache state holding a prior entry for key `a` with a nonzero
access count, backed by its file. -/
def stPrior : ImageCache.CacheState :=
  { db := [{ search_key := "a", file_path := "image_cache/a.jpg",
             metadata := "old", artwork_url := "uold", file_size := 3,
             created_at := 1, last_accessed := 1, access_count := 3 }],
    files := [("image_cache/a.jpg", [1, 2, 3])] }

/-! ## Theorems -/

/-- C10: a missing `display_status.txt` is not an error on either side:
the renderer's `get_display_status` reads it as `RUNNING` and the
server's `/status` endpoint reports status `RUNNING` with success. -/
theorem absent_status_file_is_running :
    get_display_status none = "RUNNING"
    ∧ get_status none =
        { success := true, status := some "RUNNING", message := none } :=
  ⟨rfl, rfl⟩

/-- C3 counterexample: the loader-to-render channel is an unbounded FIFO
`queue.Queue()`, not a single-slot latest-wins cell.  After two producer
puts with no consumer poll the channel holds two messages, and a poll
yields the older message `10`, not the newer `20`. -/
theorem loader_channel_not_single_slot :
    (ImageLoader.monitor_once
      (ImageLoader.monitor_once (⟨[], 0⟩ : LoaderState Nat) (some 1) (some 10))
      (some 2) (some 20)).queue = [10, 20]
    ∧ ¬ ((ImageLoader.monitor_once
      (ImageLoader.monitor_once (⟨[], 0⟩ : LoaderState Nat) (some 1) (some 10))
      (some 2) (some 20)).queue.length ≤ 1)
    ∧ (ImageLoader.get_new_content
      (ImageLoader.monitor_once
        (ImageLoader.monitor_once (⟨[], 0⟩ : LoaderState Nat) (some 1) (some 10))
        (some 2) (some 20))).1 = some 10 := by
  decide

/-- C3 (amended): the loader-to-render channel is an unbounded FIFO: a
producer put on a newer mtime appends to the queue and never replaces a
pending message, a consumer poll dequeues the oldest message, and a poll
of an empty queue yields no update. -/
theorem loader_channel_fifo {α : Type} (s : LoaderState α) (m : Int)
    (c x : α) (xs : List α) (t : Int) (h : s.last_image_mtime < m) :
    (ImageLoader.monitor_once s (some m) (some c)).queue = s.queue ++ [c]
    ∧ ImageLoader.get_new_content
        ({ queue := x :: xs, last_image_mtime := t } : LoaderState α)
        = (some x, { queue := xs, last_image_mtime := t })
    ∧ ImageLoader.get_new_content
        ({ queue := [], last_image_mtime := t } : LoaderState α)
        = (none, { queue := [], last_image_mtime := t }) := by
  refine ⟨?_, rfl, rfl⟩
  simp [ImageLoader.monitor_once, h]

/-- Witness for `loader_channel_fifo` at a concrete loader state. -/
theorem loader_channel_fifo_witness :
    ((⟨[5], 0⟩ : LoaderState Nat).last_image_mtime < 3)
    ∧ ((ImageLoader.monitor_once (⟨[5], 0⟩ : LoaderState Nat) (some 3)
          (some 7)).queue = [5] ++ [7]
       ∧ ImageLoader.get_new_content
           ({ queue := 1 :: [2], last_image_mtime := 4 } : LoaderState Nat)
           = (some 1, { queue := [2], last_image_mtime := 4 })
       ∧ ImageLoader.get_new_content
           ({ queue := [], last_image_mtime := 4 } : LoaderState Nat)
           = (none, { queue := [], last_image_mtime := 4 })) :=
  ⟨by decide, loader_channel_fifo ⟨[5], 0⟩ 3 7 1 [2] 4 (by decide)⟩

/-- C9 counterexample: content polled from the loader while a transition
is in flight is discarded, not queued.  In a transitioning state with
pending content `7`, one frame dequeues `7` and drops it: the queue is
empty afterwards and the transition target is still the old `1`, so the
delivered content is lost. -/
theorem transitioning_content_dropped :
    (run_display_step (⟨[7], true, 0, some 1⟩ : RenderState Nat) false).2
      = some 7
    ∧ (run_display_step (⟨[7], true, 0, some 1⟩ : RenderState Nat) false).1
      = ⟨[], true, 0, some 1⟩ := by
  decide

/-- C9 (amended): per frame, content polled while Transitioning is
dequeued and discarded (and the running transition keeps its target —
at most one transition is ever in flight), while content polled while
Idle immediately starts a transition to it. -/
theorem render_loop_step_spec {α : Type} (s : RenderState α)
    (completes : Bool) (c : α) (rest : List α) :
    (s.is_transitioning = true → s.queue = c :: rest →
       (run_display_step s completes).2 = some c
       ∧ (run_display_step s completes).1.queue = rest
       ∧ (run_display_step s completes).1.next_image = s.next_image)
    ∧ (s.is_transitioning = false → s.queue = c :: rest →
       (run_display_step s completes).1.is_transitioning = !completes
       ∧ (run_display_step s completes).1.next_image = some c
       ∧ (run_display_step s completes).2 = none) := by
  constructor
  · intro ht hq
    cases hc : completes <;>
      simp [run_display_step, hq, ht, hc]
  · intro ht hq
    cases hc : completes <;>
      simp [run_display_step, hq, ht, hc]

/-- `pickBest` never returns a pair whose score is below the starting
pair's. -/
theorem pickBest_ge_start (best : Nat × ITunesResult)
    (l : List (Nat × ITunesResult)) : best.1 ≤ (pickBest best l).1 := by
  induction l generalizing best with
  | nil => exact Nat.le_refl _
  | cons y ys ih =>
    by_cases hy : y.1 > best.1
    · calc best.1 ≤ y.1 := Nat.le_of_lt hy
        _ ≤ (pickBest y ys).1 := ih y
        _ = (pickBest best (y :: ys)).1 := by simp [pickBest, hy]
    · calc best.1 ≤ (pickBest best ys).1 := ih best
        _ = (pickBest best (y :: ys)).1 := by simp [pickBest, hy]

/-- `pickBest` returns the first pair of maximal score: the input splits
around the result, everything before it scores strictly less and
everything after it scores at most as much. -/
theorem pickBest_first_max (best : Nat × ITunesResult)
    (l : List (Nat × ITunesResult)) :
    ∃ l1 l2, best :: l = l1 ++ pickBest best l :: l2
      ∧ (∀ p ∈ l1, p.1 < (pickBest best l).1)
      ∧ (∀ p ∈ l2, p.1 ≤ (pickBest best l).1) := by
  induction l generalizing best with
  | nil => exact ⟨[], [], rfl, by simp, by simp⟩
  | cons y ys ih =>
    by_cases hy : y.1 > best.1
    · have hres : pickBest best (y :: ys) = pickBest y ys := by
        simp [pickBest, hy]
      obtain ⟨l1, l2, heq, h1, h2⟩ := ih y
      refine ⟨best :: l1, l2, ?_, ?_, ?_⟩
      · rw [hres]
        simpa using heq
      · intro p hp
        rw [hres]
        rcases List.mem_cons.mp hp with hp | hp
        · subst hp
          exact Nat.lt_of_lt_of_le hy (pickBest_ge_start y ys)
        · exact h1 p hp
      · intro p hp
        rw [hres]
        exact h2 p hp
    · have hres : pickBest best (y :: ys) = pickBest best ys := by
        simp [pickBest, hy]
      have hyb : y.1 ≤ best.1 := Nat.le_of_not_lt hy
      obtain ⟨l1, l2, heq, h1, h2⟩ := ih best
      cases l1 with
      | nil =>
        simp only [List.nil_append, List.cons.injEq] at heq
        obtain ⟨hb, hys⟩ := heq
        refine ⟨[], y :: l2, ?_, by simp, ?_⟩
        · rw [hres, ← hb, hys]
          simp
        · intro p hp
          rw [hres, ← hb]
          rcases List.mem_cons.mp hp with hp | hp
          · subst hp
            exact hyb
          · rw [hb]
            exact h2 p hp
      | cons a l1' =>
        simp only [List.cons_append, List.cons.injEq] at heq
        obtain ⟨ha, hys⟩ := heq
        have hblt : best.1 < (pickBest best ys).1 := by
          have := h1 a (by simp)
          rwa [← ha] at this
        refine ⟨best :: y :: l1', l2, ?_, ?_, ?_⟩
        · rw [hres]
          conv_lhs => rw [hys]
          simp
        · intro p hp
          rw [hres]
          rcases List.mem_cons.mp hp with hp | hp
          · subst hp; exact hblt
          · rcases List.mem_cons.mp hp with hp | hp
            · subst hp; exact Nat.lt_of_le_of_lt hyb hblt
            · exact h1 p (by simp [hp])
        · intro p hp
          rw [hres]
          exact h2 p hp

/-- Projecting the candidates back out of the scored list returns the
candidate list. -/
theorem map_snd_scored (S : ITunesResult → Nat) (l : List ITunesResult) :
    (l.map (fun r => (S r, r))).map Prod.snd = l := by
  induction l with
  | nil => rfl
  | cons x xs ih => simp [ih]

/-- Every element of the scored list is its own score paired with its
candidate. -/
theorem mem_scored_shape (S : ITunesResult → Nat) (l : List ITunesResult)
    (p : Nat × ITunesResult) (hp : p ∈ l.map (fun r => (S r, r))) :
    p.1 = S p.2 ∧ p.2 ∈ l := by
  rcases List.mem_map.mp hp with ⟨r, hr, hpr⟩
  subst hpr
  exact ⟨rfl, hr⟩

/-- C6: on a non-empty candidate list, `find_best_itunes_match` returns
the first candidate (in provider order) attaining the maximal score,
where the score of a candidate is `scoreResult` (100 for an exact
lowercased title or "artist title" match, else 50 for a title substring
overlap, plus 30 for artist overlap, plus 20 for album overlap, plus 10
for present high-resolution artwork); in particular, for query
"Dark Side" the exact title match scores 100 against 50 and is
selected. -/
theorem find_best_itunes_match_spec (search_term : String)
    (c : ITunesResult) (cs : List ITunesResult) :
    (∃ pre r post,
       find_best_itunes_match (c :: cs) search_term = some r
       ∧ c :: cs = pre ++ r :: post
       ∧ (∀ x ∈ pre, scoreResult (strLower search_term) x
            < scoreResult (strLower search_term) r)
       ∧ (∀ x ∈ post, scoreResult (strLower search_term) x
            ≤ scoreResult (strLower search_term) r))
    ∧ scoreResult (strLower "Dark Side") darkSideMoon = 50
    ∧ scoreResult (strLower "Dark Side") darkSideExact = 100
    ∧ find_best_itunes_match [darkSideMoon, darkSideExact] "Dark Side"
        = some darkSideExact := by
  refine ⟨?_, by decide, by decide, by decide⟩
  obtain ⟨l1, l2, heq, h1, h2⟩ :=
    pickBest_first_max (scoreResult (strLower search_term) c, c)
      (cs.map (fun r => (scoreResult (strLower search_term) r, r)))
  have hmap : (c :: cs).map
      (fun r => (scoreResult (strLower search_term) r, r))
      = l1 ++ pickBest (scoreResult (strLower search_term) c, c)
          (cs.map (fun r => (scoreResult (strLower search_term) r, r))) :: l2 := by
    rw [List.map_cons]
    exact heq
  have hshape : ∀ p ∈ (c :: cs).map
      (fun r => (scoreResult (strLower search_term) r, r)),
      p.1 = scoreResult (strLower search_term) p.2 ∧ p.2 ∈ c :: cs :=
    fun p hp => mem_scored_shape (scoreResult (strLower search_term)) (c :: cs) p hp
  have hbmem : pickBest (scoreResult (strLower search_term) c, c)
      (cs.map (fun r => (scoreResult (strLower search_term) r, r)))
      ∈ (c :: cs).map (fun r => (scoreResult (strLower search_term) r, r)) := by
    rw [hmap]
    exact List.mem_append_right _ (List.mem_cons_self _ _)
  have hbscore := (hshape _ hbmem).1
  refine ⟨l1.map Prod.snd,
    (pickBest (scoreResult (strLower search_term) c, c)
      (cs.map (fun r => (scoreResult (strLower search_term) r, r)))).2,
    l2.map Prod.snd, ?_, ?_, ?_, ?_⟩
  · simp [find_best_itunes_match]
  · have hc := congrArg (List.map Prod.snd) hmap
    rw [map_snd_scored] at hc
    simpa using hc
  · intro x hx
    rcases List.mem_map.mp hx with ⟨p, hp, hpx⟩
    have hmem : p ∈ (c :: cs).map
        (fun r => (scoreResult (strLower search_term) r, r)) := by
      rw [hmap]
      exact List.mem_append_left _ hp
    rw [← hpx, ← (hshape p hmem).1, ← hbscore]
    exact h1 p hp
  · intro x hx
    rcases List.mem_map.mp hx with ⟨p, hp, hpx⟩
    have hmem : p ∈ (c :: cs).map
        (fun r => (scoreResult (strLower search_term) r, r)) := by
      rw [hmap]
      exact List.mem_append_right _ (List.mem_cons_of_mem _ hp)
    rw [← hpx, ← (hshape p hmem).1, ← hbscore]
    exact h2 p hp

/-- Witness for `render_loop_step_spec`: a transitioning frame drops the
polled content, an idle frame starts a transition to it. -/
theorem render_loop_step_spec_witness :
    ((⟨[7], true, 0, some 1⟩ : RenderState Nat).is_transitioning = true
     ∧ (⟨[7], true, 0, some 1⟩ : RenderState Nat).queue = 7 :: []
     ∧ (run_display_step (⟨[7], true, 0, some 1⟩ : RenderState Nat) false).2
         = some 7)
    ∧ ((⟨[7], false, 0, none⟩ : RenderState Nat).is_transitioning = false
       ∧ (run_display_step (⟨[7], false, 0, none⟩ : RenderState Nat)
           false).1.next_image = some 7) :=
  ⟨⟨rfl, rfl,
    ((render_loop_step_spec (⟨[7], true, 0, some 1⟩ : RenderState Nat)
      false 7 []).1 rfl rfl).1⟩,
   ⟨rfl,
    ((render_loop_step_spec (⟨[7], false, 0, none⟩ : RenderState Nat)
      false 7 []).2 rfl rfl).2.1⟩⟩

/-- Prepending the first sleep: the sleep list produced with a doubled
(resp. unchanged) delay, preceded by the current delay, is the sleep list
for one more retry at the current delay. -/
theorem sleeps_shift (expo : Bool) (d : ℚ) (k : Nat) :
    d :: (List.range k).map
        (fun i => (if expo then 2 ^ i else 1) * (if expo then d * 2 else d))
      = (List.range (k + 1)).map
          (fun i => (if expo then 2 ^ i else 1) * d) := by
  induction k with
  | zero => cases expo <;> simp [List.range_succ]
  | succ k ih =>
    rw [List.range_succ, List.map_append, List.range_succ, List.map_append,
      ← List.cons_append, ih]
    congr 1
    cases expo with
    | true =>
      simp [pow_succ]
      ring
    | false => simp

/-- Success case of the retry loop: if the operation fails retryably on
the first `k` attempts (from start index `a0`) and succeeds on attempt
`k + 1`, with attempts to spare, the loop returns the success after
sleeping the geometric (or constant) delay sequence. -/
theorem retryLoop_succeeds {ε α : Type} (op : Nat → Except ε α)
    (expo : Bool) (a : α) (k : Nat) :
    ∀ (a0 r : Nat) (d : ℚ) (acc : List ℚ), k < r →
      (∀ i, i < k → ∃ er, op (a0 + i) = Except.error er) →
      op (a0 + k) = Except.ok a →
      retryLoop op expo a0 r d acc =
        (some (Except.ok a),
         acc ++ (List.range k).map
           (fun i => (if expo then 2 ^ i else 1) * d)) := by
  induction k with
  | zero =>
    intro a0 r d acc hk hfail hok
    obtain ⟨r', rfl⟩ : ∃ r', r = r' + 1 := ⟨r - 1, by omega⟩
    rw [Nat.add_zero] at hok
    simp [retryLoop, hok]
  | succ k ih =>
    intro a0 r d acc hk hfail hok
    obtain ⟨r', rfl⟩ : ∃ r', r = r' + 1 := ⟨r - 1, by omega⟩
    obtain ⟨e0, he0⟩ := hfail 0 (Nat.succ_pos k)
    rw [Nat.add_zero] at he0
    have hr' : ¬ r' = 0 := by omega
    have step : retryLoop op expo a0 (r' + 1) d acc =
        retryLoop op expo (a0 + 1) r' (if expo then d * 2 else d)
          (acc ++ [d]) := by
      simp [retryLoop, he0, hr']
    rw [step,
      ih (a0 + 1) r' (if expo then d * 2 else d) (acc ++ [d]) (by omega)
        (fun i hi => by
          obtain ⟨er, her⟩ := hfail (i + 1) (by omega)
          exact ⟨er, by
            rw [show a0 + 1 + i = a0 + (i + 1) from by omega]
            exact her⟩)
        (by
          rw [show a0 + 1 + k = a0 + (k + 1) from by omega]
          exact hok)]
    rw [← sleeps_shift expo d k]
    simp

/-- Exhaustion case of the retry loop: if every one of the `r` remaining
attempts fails retryably, the loop re-raises the last failure after
`r - 1` sleeps (none after the final attempt). -/
theorem retryLoop_exhausts {ε α : Type} (op : Nat → Except ε α)
    (expo : Bool) (e : Nat → ε) (r : Nat) :
    ∀ (a0 : Nat) (d : ℚ) (acc : List ℚ), 0 < r →
      (∀ i, i < r → op (a0 + i) = Except.error (e (a0 + i))) →
      retryLoop op expo a0 r d acc =
        (some (Except.error (e (a0 + (r - 1)))),
         acc ++ (List.range (r - 1)).map
           (fun i => (if expo then 2 ^ i else 1) * d)) := by
  induction r with
  | zero => intro _ _ _ h; omega
  | succ r' ih =>
    intro a0 d acc _ hfail
    have he0 : op a0 = Except.error (e a0) := by
      have := hfail 0 (Nat.succ_pos r')
      simpa using this
    by_cases hr : r' = 0
    · subst hr
      simp [retryLoop, he0]
    · have step : retryLoop op expo a0 (r' + 1) d acc =
          retryLoop op expo (a0 + 1) r' (if expo then d * 2 else d)
            (acc ++ [d]) := by
        simp [retryLoop, he0, hr]
      rw [step,
        ih (a0 + 1) (if expo then d * 2 else d) (acc ++ [d]) (by omega)
          (fun i hi => by
            rw [show a0 + 1 + i = a0 + (i + 1) from by omega]
            exact hfail (i + 1) (by omega))]
      rw [show a0 + 1 + (r' - 1) = a0 + (r' + 1 - 1) from by omega,
        show r' + 1 - 1 = (r' - 1) + 1 from by omega,
        ← sleeps_shift expo d (r' - 1)]
      simp

/-- C7: `retry_with_backoff` invokes the operation up to `max_attempts`
times.  If the operation fails retryably on the first `k` attempts
(`k < max_attempts`) and then succeeds, the wrapper returns the success
of attempt `k + 1` having slept the delays `initial_delay`,
`2·initial_delay`, …, `2^(k-1)·initial_delay` (constant delays when
`exponential` is off).  If all `max_attempts` attempts fail retryably,
the last failure is propagated with only `max_attempts - 1` sleeps — no
sleep after the final attempt. -/
theorem retry_with_backoff_spec {ε α : Type} (op : Nat → Except ε α)
    (e : Nat → ε) (a : α) (max_attempts k : Nat) (initial_delay : ℚ)
    (expo : Bool) :
    (k < max_attempts →
       (∀ i, i < k → op i = Except.error (e i)) →
       op k = Except.ok a →
       retry_with_backoff max_attempts initial_delay expo op =
         (some (Except.ok a),
          (List.range k).map
            (fun i => (if expo then 2 ^ i else 1) * initial_delay)))
    ∧ (0 < max_attempts →
       (∀ i, i < max_attempts → op i = Except.error (e i)) →
       retry_with_backoff max_attempts initial_delay expo op =
         (some (Except.error (e (max_attempts - 1))),
          (List.range (max_attempts - 1)).map
            (fun i => (if expo then 2 ^ i else 1) * initial_delay))) := by
  constructor
  · intro hk hfail hok
    have h := retryLoop_succeeds op expo a k 0 max_attempts initial_delay []
      hk (fun i hi => ⟨e i, by simpa using hfail i hi⟩) (by simpa using hok)
    simpa [retry_with_backoff] using h
  · intro hmax hfail
    have h := retryLoop_exhausts op expo e max_attempts 0 initial_delay []
      hmax (fun i hi => by simpa using hfail i hi)
    simpa [retry_with_backoff] using h

/-- Witness for `retry_with_backoff_spec`: the spec's own example — an
operation failing 3 times then succeeding under policy
{max_attempts := 4, initial_delay := 1, exponential := true} succeeds on
the 4th attempt after sleeping 1, 2 and 4 seconds. -/
theorem retry_with_backoff_spec_witness :
    (3 < 4 ∧ (∀ i, i < 3 → retryOp3 i = Except.error i)
     ∧ retryOp3 3 = Except.ok 42)
    ∧ retry_with_backoff 4 1 true retryOp3
        = (some (Except.ok 42), [1, 2, 4]) :=
  ⟨⟨by decide, by decide, by decide⟩,
   ((retry_with_backoff_spec retryOp3 (fun i => i) 42 4 3 1 true).1
     (by decide) (by decide) (by decide)).trans
     (by norm_num [List.range_succ])⟩

/-- Total recorded size distributes over append. -/
theorem get_total_size_append (l1 l2 : List ImageCache.CacheEntry) :
    ImageCache.get_total_size (l1 ++ l2)
      = ImageCache.get_total_size l1 + ImageCache.get_total_size l2 := by
  simp [ImageCache.get_total_size]

/-- The eviction loop only ever drops a prefix: the kept rows are a
suffix of the rows it walked. -/
theorem evictLoop_suffix (max : Nat) (l : List ImageCache.CacheEntry) :
    ∀ (cur : Int) (fs : FS),
      (ImageCache.evictLoop max l cur fs).1 <:+ l := by
  induction l with
  | nil => intro cur fs; simp [ImageCache.evictLoop]
  | cons e rest ih =>
    intro cur fs
    by_cases hg : 5 * cur ≤ 4 * (max : Int)
    · simp [ImageCache.evictLoop, hg]
    · simp only [ImageCache.evictLoop, if_neg hg]
      exact (ih _ _).trans (List.suffix_cons e rest)

/-- When started with the true total of the rows it walks, the eviction
loop stops only once the kept total is within the 80% target. -/
theorem evictLoop_bound (max : Nat) (l : List ImageCache.CacheEntry) :
    ∀ (cur : Int) (fs : FS),
      cur = (ImageCache.get_total_size l : Int) →
      5 * ImageCache.get_total_size (ImageCache.evictLoop max l cur fs).1
        ≤ 4 * max := by
  induction l with
  | nil =>
    intro cur fs h
    simp [ImageCache.evictLoop, ImageCache.get_total_size]
  | cons e rest ih =>
    intro cur fs h
    by_cases hg : 5 * cur ≤ 4 * (max : Int)
    · simp only [ImageCache.evictLoop, if_pos hg]
      have hle : (5 : Int) * (ImageCache.get_total_size (e :: rest) : Int)
          ≤ 4 * max := h ▸ hg
      exact_mod_cast hle
    · simp only [ImageCache.evictLoop, if_neg hg]
      apply ih
      rw [h]
      simp only [ImageCache.get_total_size, List.map_cons, List.sum_cons]
      push_cast
      ring

/-- Inserting into an ascending list is a permutation of consing. -/
theorem insertByLA_perm (e : ImageCache.CacheEntry)
    (l : List ImageCache.CacheEntry) :
    List.Perm (ImageCache.insertByLA e l) (e :: l) := by
  induction l with
  | nil => exact List.Perm.refl _
  | cons x xs ih =>
    by_cases hx : x.last_accessed ≤ e.last_accessed
    · simp only [ImageCache.insertByLA, if_pos hx]
      exact List.Perm.trans (List.Perm.cons x ih) (List.Perm.swap e x xs)
    · simp only [ImageCache.insertByLA, if_neg hx]
      exact List.Perm.refl _

/-- Sorting by `last_accessed` permutes the rows. -/
theorem sortByLA_perm (l : List ImageCache.CacheEntry) :
    List.Perm (ImageCache.sortByLA l) l := by
  induction l with
  | nil => exact List.Perm.refl _
  | cons x xs ih =>
    exact List.Perm.trans (insertByLA_perm x _) (List.Perm.cons x ih)

/-- Insertion preserves ascending `last_accessed` order. -/
theorem insertByLA_pairwise (e : ImageCache.CacheEntry)
    (l : List ImageCache.CacheEntry)
    (h : List.Pairwise (fun a b => a.last_accessed ≤ b.last_accessed) l) :
    List.Pairwise (fun a b => a.last_accessed ≤ b.last_accessed)
      (ImageCache.insertByLA e l) := by
  induction l with
  | nil => simp [ImageCache.insertByLA]
  | cons x xs ih =>
    rcases List.pairwise_cons.mp h with ⟨hx, hxs⟩
    by_cases hc : x.last_accessed ≤ e.last_accessed
    · simp only [ImageCache.insertByLA, if_pos hc]
      refine List.pairwise_cons.mpr ⟨?_, ih hxs⟩
      intro b hb
      have hb2 : b ∈ e :: xs := (insertByLA_perm e xs).mem_iff.mp hb
      rcases List.mem_cons.mp hb2 with rfl | hbxs
      · exact hc
      · exact hx b hbxs
    · simp only [ImageCache.insertByLA, if_neg hc]
      have he : e.last_accessed ≤ x.last_accessed :=
        Nat.le_of_lt (Nat.lt_of_not_le hc)
      refine List.pairwise_cons.mpr ⟨?_, h⟩
      intro b hb
      rcases List.mem_cons.mp hb with rfl | hbxs
      · exact he
      · exact Nat.le_trans he (hx b hbxs)

/-- The sorted rows are in ascending `last_accessed` order. -/
theorem sortByLA_pairwise (l : List ImageCache.CacheEntry) :
    List.Pairwise (fun a b => a.last_accessed ≤ b.last_accessed)
      (ImageCache.sortByLA l) := by
  induction l with
  | nil => simp [ImageCache.sortByLA]
  | cons x xs ih => exact insertByLA_pairwise x _ ih

/-- C2: `cleanup_if_needed` never evicts while the total recorded size is
at most `max_size_bytes`; when the total exceeds it, it walks the rows in
ascending `last_accessed` order evicting until the total is at most 80%
of the maximum (exact arithmetic: `5·total ≤ 4·max`), so the kept rows
are a suffix of the ascending order and every evicted row is no more
recently accessed than every retained row. -/
theorem cleanup_if_needed_spec (cfg : ImageCache.Config)
    (s : ImageCache.CacheState) :
    (ImageCache.get_total_size s.db ≤ cfg.max_size_bytes →
       ImageCache.cleanup_if_needed cfg s = s)
    ∧ (ImageCache.get_total_size s.db > cfg.max_size_bytes →
       5 * ImageCache.get_total_size (ImageCache.cleanup_if_needed cfg s).db
           ≤ 4 * cfg.max_size_bytes
       ∧ (ImageCache.cleanup_if_needed cfg s).db <:+ ImageCache.sortByLA s.db
       ∧ ∀ x ∈ s.db, x ∉ (ImageCache.cleanup_if_needed cfg s).db →
           ∀ y ∈ (ImageCache.cleanup_if_needed cfg s).db,
             x.last_accessed ≤ y.last_accessed) := by
  constructor
  · intro hle
    simp [ImageCache.cleanup_if_needed, Nat.not_lt.mpr hle]
  · intro hgt
    have hcleanup : ImageCache.cleanup_if_needed cfg s
        = ImageCache.remove_least_recently_used cfg s := by
      simp [ImageCache.cleanup_if_needed, hgt]
    have hdb : (ImageCache.remove_least_recently_used cfg s).db
        = (ImageCache.evictLoop cfg.max_size_bytes (ImageCache.sortByLA s.db)
            (ImageCache.get_total_size s.db : Int) s.files).1 := rfl
    have htot : ImageCache.get_total_size (ImageCache.sortByLA s.db)
        = ImageCache.get_total_size s.db := by
      exact List.Perm.sum_eq ((sortByLA_perm s.db).map (fun r => r.file_size))
    rw [hcleanup, hdb]
    have hsuf := evictLoop_suffix cfg.max_size_bytes (ImageCache.sortByLA s.db)
      (ImageCache.get_total_size s.db : Int) s.files
    refine ⟨?_, hsuf, ?_⟩
    · exact evictLoop_bound cfg.max_size_bytes (ImageCache.sortByLA s.db) _
        s.files (by rw [htot])
    · intro x hx hxkept y hy
      obtain ⟨pre, hpre⟩ := hsuf
      have hxsorted : x ∈ ImageCache.sortByLA s.db :=
        (sortByLA_perm s.db).mem_iff.mpr hx
      rw [← hpre] at hxsorted
      rcases List.mem_append.mp hxsorted with hxpre | hxk
      · have hpair := sortByLA_pairwise s.db
        rw [← hpre] at hpair
        exact (List.pairwise_append.mp hpair).2.2 x hxpre y hy
      · exact absurd hxk hxkept

/-- Witness for `cleanup_if_needed_spec`: two 6-byte entries against a
10-byte cap exceed the maximum, and the cleanup pass evicts the older
one. -/
theorem cleanup_if_needed_spec_witness :
    ImageCache.get_total_size stOverBudget.db > cfgSmall.max_size_bytes
    ∧ (5 * ImageCache.get_total_size
          (ImageCache.cleanup_if_needed cfgSmall stOverBudget).db
         ≤ 4 * cfgSmall.max_size_bytes
       ∧ (ImageCache.cleanup_if_needed cfgSmall stOverBudget).db
           <:+ ImageCache.sortByLA stOverBudget.db
       ∧ ∀ x ∈ stOverBudget.db,
           x ∉ (ImageCache.cleanup_if_needed cfgSmall stOverBudget).db →
           ∀ y ∈ (ImageCache.cleanup_if_needed cfgSmall stOverBudget).db,
             x.last_accessed ≤ y.last_accessed) :=
  ⟨by decide, (cleanup_if_needed_spec cfgSmall stOverBudget).2 (by decide)⟩

/-- Rows filtered to a different key never match that key. -/
theorem find?_filter_ne (l : List ImageCache.CacheEntry) (key : String) :
    (l.filter (fun r => r.search_key != key)).find?
      (fun r => r.search_key == key) = none := by
  induction l with
  | nil => rfl
  | cons r rest ih =>
    by_cases h : r.search_key = key
    · simp [List.filter_cons, h, ih]
    · simp [List.filter_cons, h, ih]

/-- `find?` skips a prefix in which it finds nothing. -/
theorem find?_append_of_none {p : ImageCache.CacheEntry → Bool}
    (l1 l2 : List ImageCache.CacheEntry) (h : l1.find? p = none) :
    (l1 ++ l2).find? p = l2.find? p := by
  induction l1 with
  | nil => rfl
  | cons x xs ih =>
    by_cases hp : p x
    · rw [List.find?_cons_of_pos _ hp] at h
      cases h
    · rw [List.find?_cons_of_neg _ hp] at h
      rw [List.cons_append, List.find?_cons_of_neg _ hp]
      exact ih h

/-- The access-statistics bump of `ImageCache.get` commutes with the key
lookup: finding the key after the bump finds the bumped row. -/
theorem find?_map_bump (db : List ImageCache.CacheEntry) (key : String)
    (now : Nat) :
    (db.map (fun r =>
        if r.search_key == key then
          { r with last_accessed := now, access_count := r.access_count + 1 }
        else r)).find? (fun r => r.search_key == key)
      = (db.find? (fun r => r.search_key == key)).map
          (fun r =>
            { r with last_accessed := now,
                     access_count := r.access_count + 1 }) := by
  induction db with
  | nil => rfl
  | cons r rest ih =>
    rw [List.map_cons]
    by_cases h : (r.search_key == key) = true
    · rw [if_pos h,
        @List.find?_cons_of_pos ImageCache.CacheEntry
          (fun x => x.search_key == key) _ _ (by simpa using h),
        @List.find?_cons_of_pos ImageCache.CacheEntry
          (fun x => x.search_key == key) _ _ h]
      rfl
    · rw [if_neg h,
        @List.find?_cons_of_neg ImageCache.CacheEntry
          (fun x => x.search_key == key) _ _ h,
        @List.find?_cons_of_neg ImageCache.CacheEntry
          (fun x => x.search_key == key) _ _ h]
      exact ih

/-- Deleting the unique row carrying a key shrinks the table by exactly
one row. -/
theorem filter_ne_length (db : List ImageCache.CacheEntry) (key : String)
    (hnd : (db.map (fun r => r.search_key)).Nodup)
    (row : ImageCache.CacheEntry) (hrow : row ∈ db)
    (hkey : row.search_key = key) :
    (db.filter (fun r => r.search_key != key)).length + 1 = db.length := by
  induction db with
  | nil => cases hrow
  | cons r rest ih =>
    rw [List.map_cons, List.nodup_cons] at hnd
    obtain ⟨hr, hnd2⟩ := hnd
    rcases List.mem_cons.mp hrow with rfl | hmem
    · subst hkey
      have hall : ∀ x ∈ rest, (x.search_key != row.search_key) = true := by
        intro x hx
        simp only [bne_iff_ne, ne_eq]
        intro hcontra
        exact hr (hcontra ▸ List.mem_map_of_mem _ hx)
      rw [List.filter_cons, if_neg (by simp), List.filter_eq_self.mpr hall]
      simp
    · have hrkey : r.search_key ≠ key := by
        intro hcontra
        exact hr (hcontra ▸ hkey ▸ List.mem_map_of_mem _ hmem)
      rw [List.filter_cons, if_pos (by simp [hrkey])]
      have := ih hnd2 hmem
      simp only [List.length_cons]
      omega

/-- C5: a cache hit whose backing file has been deleted out-of-band
self-heals: `get` returns nothing, removes exactly the stale row (the
statistics' entry count drops by exactly one), touches no file, and
leaves every surviving row untouched. -/
theorem stale_entry_self_heal (s : ImageCache.CacheState) (now : Nat)
    (search_term : String) (row : ImageCache.CacheEntry)
    (hfind : s.db.find?
        (fun r => r.search_key == ImageCache.get_cache_key search_term)
        = some row)
    (hmissing : fsExists s.files row.file_path = false)
    (hnd : (s.db.map (fun r => r.search_key)).Nodup) :
    (ImageCache.get s now search_term).1 = none
    ∧ (ImageCache.get s now search_term).2.db
        = s.db.filter
            (fun r => r.search_key != ImageCache.get_cache_key search_term)
    ∧ (ImageCache.get_stats (ImageCache.get s now search_term).2).entry_count
        + 1 = (ImageCache.get_stats s).entry_count
    ∧ (ImageCache.get s now search_term).2.files = s.files
    ∧ ∀ r ∈ (ImageCache.get s now search_term).2.db, r ∈ s.db := by
  have hget : ImageCache.get s now search_term =
      (none,
       ImageCache.CacheState.mk
         (s.db.filter
           (fun r => r.search_key != ImageCache.get_cache_key search_term))
         s.files) := by
    simp [ImageCache.get, hfind, hmissing]
  have hrowkey : row.search_key = ImageCache.get_cache_key search_term := by
    have := List.find?_some hfind
    simpa using this
  have hrowmem : row ∈ s.db := List.mem_of_find?_eq_some hfind
  refine ⟨by simp [hget], by simp [hget], ?_, by simp [hget], ?_⟩
  · rw [hget]
    simp only [ImageCache.get_stats]
    exact filter_ne_length s.db _ hnd row hrowmem hrowkey
  · rw [hget]
    intro r hr
    exact List.mem_of_mem_filter hr

/-- Witness for `stale_entry_self_heal`: the entry for key `a` has lost
its backing file; looking it up heals the table. -/
theorem stale_entry_self_heal_witness :
    (stStale.db.find? (fun r => r.search_key == ImageCache.get_cache_key "a")
        = some entryOld
     ∧ fsExists stStale.files entryOld.file_path = false
     ∧ (stStale.db.map (fun r => r.search_key)).Nodup)
    ∧ ((ImageCache.get stStale 9 "a").1 = none
       ∧ (ImageCache.get stStale 9 "a").2.db
           = stStale.db.filter
               (fun r => r.search_key != ImageCache.get_cache_key "a")
       ∧ (ImageCache.get_stats (ImageCache.get stStale 9 "a").2).entry_count
           + 1 = (ImageCache.get_stats stStale).entry_count
       ∧ (ImageCache.get stStale 9 "a").2.files = stStale.files
       ∧ ∀ r ∈ (ImageCache.get stStale 9 "a").2.db, r ∈ stStale.db) :=
  ⟨⟨by decide, by decide, by decide⟩,
   stale_entry_self_heal stStale 9 "a" entryOld (by decide) (by decide)
     (by decide)⟩

/-- Appending a fresh row for a key to rows filtered to other keys makes
that row the one the key finds. -/
theorem find?_append_fresh (dbf : List ImageCache.CacheEntry)
    (row : ImageCache.CacheEntry) (key : String)
    (hnone : dbf.find? (fun r => r.search_key == key) = none)
    (hkey : (row.search_key == key) = true) :
    (dbf ++ [row]).find? (fun r => r.search_key == key) = some row := by
  rw [find?_append_of_none _ _ hnone]
  exact @List.find?_cons_of_pos ImageCache.CacheEntry
    (fun x => x.search_key == key) _ _ hkey

/-- The recorded access count of a freshly appended row. -/
theorem accessCountOf_append_fresh (dbf : List ImageCache.CacheEntry)
    (row : ImageCache.CacheEntry) (key : String)
    (hnone : dbf.find? (fun r => r.search_key == key) = none)
    (hkey : (row.search_key == key) = true) :
    ImageCache.accessCountOf (dbf ++ [row]) key = row.access_count := by
  simp [ImageCache.accessCountOf, find?_append_fresh dbf row key hnone hkey]

/-- The access-statistics bump of a hit raises the recorded access count
of the hit key by exactly one. -/
theorem accessCountOf_map_bump (db : List ImageCache.CacheEntry)
    (key : String) (now : Nat) (row : ImageCache.CacheEntry)
    (hfind : db.find? (fun r => r.search_key == key) = some row) :
    ImageCache.accessCountOf
      (db.map (fun r =>
        if r.search_key == key then
          { r with last_accessed := now, access_count := r.access_count + 1 }
        else r)) key
      = ImageCache.accessCountOf db key + 1 := by
  unfold ImageCache.accessCountOf
  rw [find?_map_bump, hfind]
  rfl

/-- With enough room that the cleanup pass does nothing, `put` writes the
image file named by the key and upserts the row, coalescing the prior
access count. -/
theorem put_eq (cfg : ImageCache.Config) (s : ImageCache.CacheState)
    (t1 : Nat) (term metadata artwork_url : String) (img : List Nat)
    (hsize : img.length + ImageCache.get_total_size
        (s.db.filter
          (fun r => r.search_key != ImageCache.get_cache_key term))
        ≤ cfg.max_size_bytes) :
    ImageCache.put cfg s t1 term img metadata artwork_url =
      (cfg.cache_dir ++ "/" ++ ImageCache.get_cache_key term ++ ".jpg",
       ImageCache.CacheState.mk
         (s.db.filter
            (fun r => r.search_key != ImageCache.get_cache_key term) ++
          [ImageCache.CacheEntry.mk (ImageCache.get_cache_key term)
            (cfg.cache_dir ++ "/" ++ ImageCache.get_cache_key term ++ ".jpg")
            metadata artwork_url img.length t1 t1
            (ImageCache.accessCountOf s.db (ImageCache.get_cache_key term))])
         (fsWrite s.files
           (cfg.cache_dir ++ "/" ++ ImageCache.get_cache_key term ++ ".jpg")
           img)) := by
  have htot : ImageCache.get_total_size
      (s.db.filter (fun r => r.search_key != ImageCache.get_cache_key term) ++
        [ImageCache.CacheEntry.mk (ImageCache.get_cache_key term)
          (cfg.cache_dir ++ "/" ++ ImageCache.get_cache_key term ++ ".jpg")
          metadata artwork_url img.length t1 t1
          (ImageCache.accessCountOf s.db (ImageCache.get_cache_key term))])
      ≤ cfg.max_size_bytes := by
    rw [get_total_size_append]
    simp only [ImageCache.get_total_size, List.map_cons, List.map_nil,
      List.sum_cons, List.sum_nil] at hsize ⊢
    omega
  simp only [ImageCache.put, ImageCache.cleanup_if_needed]
  split
  next h => exact absurd h (Nat.not_lt.mpr htot)
  next h => rfl

/-- C4 counterexample: `put` directly followed by a case-insensitively
equal `get` does not always return the just-stored entry — with
`max_size_mb = 0` the cleanup pass triggered by `put` immediately evicts
the entry it just stored, and the `get` returns nothing. -/
theorem put_then_get_evicted :
    (ImageCache.put ⟨"image_cache", 0⟩ ⟨[], []⟩ 5 "A" [0] "md" "url").1
      = "image_cache/a.jpg"
    ∧ (ImageCache.get
        (ImageCache.put ⟨"image_cache", 0⟩ ⟨[], []⟩ 5 "A" [0] "md" "url").2
        6 "a").1 = none := by
  decide

/-- C4 (amended): provided the `put` does not trigger an eviction that
removes the just-stored entry (in particular whenever the total recorded
size after the upsert is within `max_size_bytes`), `put` followed by a
`get` with a case-insensitively equal term returns the just-stored
entry (its file path, metadata and artwork URL); the `put` preserves the
prior access count of an existing key, and the `get` increments it
exactly once. -/
theorem put_then_get_spec (cfg : ImageCache.Config)
    (s : ImageCache.CacheState) (t1 t2 : Nat)
    (term term2 metadata artwork_url : String) (img : List Nat)
    (hcase : ImageCache.get_cache_key term2 = ImageCache.get_cache_key term)
    (hsize : img.length + ImageCache.get_total_size
        (s.db.filter
          (fun r => r.search_key != ImageCache.get_cache_key term))
        ≤ cfg.max_size_bytes) :
    (ImageCache.get (ImageCache.put cfg s t1 term img metadata artwork_url).2
        t2 term2).1
      = some { file_path :=
                 (ImageCache.put cfg s t1 term img metadata artwork_url).1,
               metadata := metadata, artwork_url := artwork_url }
    ∧ ImageCache.accessCountOf
        (ImageCache.put cfg s t1 term img metadata artwork_url).2.db
        (ImageCache.get_cache_key term)
      = ImageCache.accessCountOf s.db (ImageCache.get_cache_key term)
    ∧ ImageCache.accessCountOf
        (ImageCache.get (ImageCache.put cfg s t1 term img metadata
          artwork_url).2 t2 term2).2.db
        (ImageCache.get_cache_key term)
      = ImageCache.accessCountOf s.db (ImageCache.get_cache_key term) + 1 := by
  rw [put_eq cfg s t1 term metadata artwork_url img hsize]
  have hnone := find?_filter_ne s.db (ImageCache.get_cache_key term)
  have hfind := find?_append_fresh
    (s.db.filter (fun r => r.search_key != ImageCache.get_cache_key term))
    (ImageCache.CacheEntry.mk (ImageCache.get_cache_key term)
      (cfg.cache_dir ++ "/" ++ ImageCache.get_cache_key term ++ ".jpg")
      metadata artwork_url img.length t1 t1
      (ImageCache.accessCountOf s.db (ImageCache.get_cache_key term)))
    (ImageCache.get_cache_key term) hnone (by simp)
  have hget : ImageCache.get
      (ImageCache.CacheState.mk
        (s.db.filter
          (fun r => r.search_key != ImageCache.get_cache_key term) ++
         [ImageCache.CacheEntry.mk (ImageCache.get_cache_key term)
           (cfg.cache_dir ++ "/" ++ ImageCache.get_cache_key term ++ ".jpg")
           metadata artwork_url img.length t1 t1
           (ImageCache.accessCountOf s.db (ImageCache.get_cache_key term))])
        (fsWrite s.files
          (cfg.cache_dir ++ "/" ++ ImageCache.get_cache_key term ++ ".jpg")
          img)) t2 term2
      = (some (ImageCache.GetResult.mk
           (cfg.cache_dir ++ "/" ++ ImageCache.get_cache_key term ++ ".jpg")
           metadata artwork_url),
         ImageCache.CacheState.mk
           ((s.db.filter
              (fun r => r.search_key != ImageCache.get_cache_key term) ++
             [ImageCache.CacheEntry.mk (ImageCache.get_cache_key term)
               (cfg.cache_dir ++ "/" ++ ImageCache.get_cache_key term ++ ".jpg")
               metadata artwork_url img.length t1 t1
               (ImageCache.accessCountOf s.db
                 (ImageCache.get_cache_key term))]).map
             (fun r =>
               if r.search_key == ImageCache.get_cache_key term then
                 { r with last_accessed := t2, access_count := r.access_count + 1 }
               else r))
           (fsWrite s.files
             (cfg.cache_dir ++ "/" ++ ImageCache.get_cache_key term ++ ".jpg")
             img)) := by
    simp only [ImageCache.get, hcase, hfind]
    rw [if_pos (by simp [fsExists, fsLookup, fsWrite])]
  rw [hget]
  refine ⟨rfl, ?_, ?_⟩
  · rw [accessCountOf_append_fresh _ _ _ hnone (by simp)]
  · rw [accessCountOf_map_bump _ _ _ _ hfind,
      accessCountOf_append_fresh _ _ _ hnone (by simp)]

/-- Witness for `put_then_get_spec`: re-storing key `a` (stored term
"A", lookup term "a") preserves the prior access count 3 and the lookup
bumps it to 4. -/
theorem put_then_get_spec_witness :
    (ImageCache.get_cache_key "a" = ImageCache.get_cache_key "A"
     ∧ ([1, 2] : List Nat).length + ImageCache.get_total_size
         (stPrior.db.filter
           (fun r => r.search_key != ImageCache.get_cache_key "A"))
         ≤ (ImageCache.Config.mk "image_cache" 100).max_size_bytes)
    ∧ ((ImageCache.get (ImageCache.put ⟨"image_cache", 100⟩ stPrior 7 "A"
          [1, 2] "newmd" "newurl").2 8 "a").1
        = some { file_path := (ImageCache.put ⟨"image_cache", 100⟩ stPrior 7
                   "A" [1, 2] "newmd" "newurl").1,
                 metadata := "newmd", artwork_url := "newurl" }
       ∧ ImageCache.accessCountOf
           (ImageCache.put ⟨"image_cache", 100⟩ stPrior 7 "A" [1, 2] "newmd"
             "newurl").2.db (ImageCache.get_cache_key "A")
         = ImageCache.accessCountOf stPrior.db (ImageCache.get_cache_key "A")
       ∧ ImageCache.accessCountOf
           (ImageCache.get (ImageCache.put ⟨"image_cache", 100⟩ stPrior 7 "A"
             [1, 2] "newmd" "newurl").2 8 "a").2.db
           (ImageCache.get_cache_key "A")
         = ImageCache.accessCountOf stPrior.db (ImageCache.get_cache_key "A")
           + 1) :=
  ⟨⟨by decide, by decide⟩,
   put_then_get_spec ⟨"image_cache", 100⟩ stPrior 7 8 "A" "a" "newmd"
     "newurl" [1, 2] (by decide) (by decide)⟩

/-- The two-file publish sequence (image then metadata, each via
write-temp-then-rename) updates both published paths atomically, for any
temporary names distinct from the published paths. -/
theorem publish_ops_atomic (env : FetchEnv) (img_bytes : List Nat)
    (metadata : String)
    (h1 : env.tmpImage ≠ IMAGE_PATH) (h2 : env.tmpMeta ≠ IMAGE_PATH)
    (h3 : env.tmpImage ≠ METADATA_PATH) (h4 : env.tmpMeta ≠ METADATA_PATH) :
    publishes_atomically IMAGE_PATH
      (save_image_atomic_from_bytes env img_bytes ++
        save_metadata_atomic env metadata) = true
    ∧ publishes_atomically METADATA_PATH
      (save_image_atomic_from_bytes env img_bytes ++
        save_metadata_atomic env metadata) = true := by
  have b1 : (env.tmpImage != IMAGE_PATH) = true := by simp [h1]
  have b2 : (env.tmpMeta != IMAGE_PATH) = true := by simp [h2]
  have b3 : (env.tmpImage != METADATA_PATH) = true := by simp [h3]
  have b4 : (env.tmpMeta != METADATA_PATH) = true := by simp [h4]
  have hmi : (METADATA_PATH != IMAGE_PATH) = true := by decide
  have him : (IMAGE_PATH != METADATA_PATH) = true := by decide
  unfold publishes_atomically save_image_atomic_from_bytes
    save_metadata_atomic
  simp only [List.cons_append, List.nil_append]
  constructor
  · simp [atomicFor, b1, b2, hmi]
  · simp [atomicFor, b3, b4, him]

/-- C1 counterexample: the cache-hit path of `fetch_and_save_album_art`
does not publish the image atomically — it performs a direct in-place
`shutil.copy` of the cached file over `current_album_art.jpg` (the
metadata, by contrast, is published by write-temp-then-rename). -/
theorem cache_hit_copy_not_atomic :
    (fetch_and_save_album_art envCacheHit "x").1.success = true
    ∧ (fetch_and_save_album_art envCacheHit "x").2
      = [FileOp.copyFile "image_cache/k.jpg" IMAGE_PATH,
         FileOp.writeTemp "tmpB" (encodeMeta "md"),
         FileOp.rename "tmpB" METADATA_PATH]
    ∧ publishes_atomically IMAGE_PATH
        (fetch_and_save_album_art envCacheHit "x").2 = false := by
  decide

/-- C1 (amended): on every path that misses the image cache, each update
of `current_album_art.jpg` and of `current_metadata.json` writes the full
content to a fresh temporary file, fsyncs it and renames it over the
target, so those publishes are atomic; the cache-hit path instead copies
the cached file directly over `current_album_art.jpg` in place (only its
metadata publish is atomic). -/
theorem fetch_atomic_publish_spec (env : FetchEnv) (term : String)
    (h1 : env.tmpImage ≠ IMAGE_PATH) (h2 : env.tmpMeta ≠ IMAGE_PATH)
    (h3 : env.tmpImage ≠ METADATA_PATH) (h4 : env.tmpMeta ≠ METADATA_PATH) :
    (env.cacheHit = none →
       publishes_atomically IMAGE_PATH
         (fetch_and_save_album_art env term).2 = true
       ∧ publishes_atomically METADATA_PATH
         (fetch_and_save_album_art env term).2 = true)
    ∧ (∀ hit, env.cacheHit = some hit →
       (fetch_and_save_album_art env term).2
         = FileOp.copyFile hit.file_path IMAGE_PATH ::
             save_metadata_atomic env hit.metadata) := by
  have hpub := publish_ops_atomic env
  obtain ⟨ch, ac, se, sr, ie, io, dl, pr, tI, tM⟩ := env
  constructor
  · rintro rfl
    cases ac with
    | some api =>
      obtain ⟨md, au⟩ := api
      cases au with
      | none => exact ⟨rfl, rfl⟩
      | some url =>
        cases dl with
        | error e => exact ⟨rfl, rfl⟩
        | ok raw =>
          cases pr with
          | error e => exact ⟨rfl, rfl⟩
          | ok img => exact hpub img md h1 h2 h3 h4
    | none =>
      cases se with
      | true =>
        cases sr with
        | some r =>
          obtain ⟨md, au⟩ := r
          cases au with
          | none => exact ⟨rfl, rfl⟩
          | some url =>
            cases dl with
            | error e => exact ⟨rfl, rfl⟩
            | ok raw =>
              cases pr with
              | error e => exact ⟨rfl, rfl⟩
              | ok img => exact hpub img md h1 h2 h3 h4
        | none =>
          cases ie with
          | false => exact ⟨rfl, rfl⟩
          | true =>
            cases io with
            | error e => exact ⟨rfl, rfl⟩
            | ok o =>
              cases o with
              | none => exact ⟨rfl, rfl⟩
              | some r =>
                obtain ⟨md, au⟩ := r
                cases au with
                | none => exact ⟨rfl, rfl⟩
                | some url =>
                  cases dl with
                  | error e => exact ⟨rfl, rfl⟩
                  | ok raw =>
                    cases pr with
                    | error e => exact ⟨rfl, rfl⟩
                    | ok img => exact hpub img md h1 h2 h3 h4
      | false =>
        cases ie with
        | false => exact ⟨rfl, rfl⟩
        | true =>
          cases io with
          | error e => exact ⟨rfl, rfl⟩
          | ok o =>
            cases o with
            | none => exact ⟨rfl, rfl⟩
            | some r =>
              obtain ⟨md, au⟩ := r
              cases au with
              | none => exact ⟨rfl, rfl⟩
              | some url =>
                cases dl with
                | error e => exact ⟨rfl, rfl⟩
                | ok raw =>
                  cases pr with
                  | error e => exact ⟨rfl, rfl⟩
                  | ok img => exact hpub img md h1 h2 h3 h4
  · rintro hit rfl
    rfl

/-- Witness for `fetch_atomic_publish_spec` at a cache-missing and a
cache-hitting environment. -/
theorem fetch_atomic_publish_spec_witness :
    (envDownload.tmpImage ≠ IMAGE_PATH ∧ envDownload.cacheHit = none
     ∧ publishes_atomically IMAGE_PATH
         (fetch_and_save_album_art envDownload "x").2 = true
     ∧ publishes_atomically METADATA_PATH
         (fetch_and_save_album_art envDownload "x").2 = true)
    ∧ (envCacheHit.cacheHit = some ⟨"image_cache/k.jpg", "md", "u"⟩
       ∧ (fetch_and_save_album_art envCacheHit "x").2
         = FileOp.copyFile "image_cache/k.jpg" IMAGE_PATH ::
             save_metadata_atomic envCacheHit "md") :=
  ⟨⟨by decide, rfl,
    (fetch_atomic_publish_spec envDownload "x" (by decide) (by decide)
      (by decide) (by decide)).1 rfl⟩,
   ⟨rfl,
    (fetch_atomic_publish_spec envCacheHit "x" (by decide) (by decide)
      (by decide) (by decide)).2 ⟨"image_cache/k.jpg", "md", "u"⟩ rfl⟩⟩

/-- Failure boundary of the fallible `download_and_save`: a failure
result leaves `current_metadata.json` unchanged, and leaves
`current_album_art.jpg` either unchanged or — only when the image publish
fully succeeded and the metadata publish then failed — holding exactly
the fully-processed new bytes. -/
theorem download_and_save_boundary (env : Fallible.FetchEnv)
    (url metadata : String) (fs : Fallible.PubFS)
    (h : (Fallible.download_and_save env url metadata fs).1.success
      = false) :
    (Fallible.download_and_save env url metadata fs).2.metadata
      = fs.metadata
    ∧ ((Fallible.download_and_save env url metadata fs).2.image = fs.image
       ∨ ∃ b, env.processOutcome = Except.ok b
           ∧ env.tmpImageWrite = Except.ok ()
           ∧ env.renameImage = Except.ok ()
           ∧ (Fallible.download_and_save env url metadata fs).2.image
             = some b) := by
  obtain ⟨ch, ac, se, sr, ie, io, dl, pr, cp, co, tiw, ri, tmw, rm⟩ := env
  cases dl with
  | error e => exact ⟨rfl, Or.inl rfl⟩
  | ok raw =>
    cases pr with
    | error e => exact ⟨rfl, Or.inl rfl⟩
    | ok b =>
      cases cp with
      | error u => exact ⟨rfl, Or.inl rfl⟩
      | ok u =>
        cases tiw with
        | error v => exact ⟨rfl, Or.inl rfl⟩
        | ok v =>
          cases ri with
          | error w => exact ⟨rfl, Or.inl rfl⟩
          | ok w =>
            cases tmw with
            | error x => exact ⟨rfl, Or.inr ⟨b, rfl, rfl, rfl, rfl⟩⟩
            | ok x =>
              cases rm with
              | error y => exact ⟨rfl, Or.inr ⟨b, rfl, rfl, rfl, rfl⟩⟩
              | ok y =>
                simp [Fallible.download_and_save,
                  Fallible.save_image_atomic_from_bytes,
                  Fallible.save_metadata_atomic] at h

/-- C8 counterexample: a failure result of `fetch_and_save_album_art`
does not leave the published files unchanged on every path.  A
metadata-publish failure after the image was renamed into place returns
failure with `current_album_art.jpg` already replaced by the new image;
a cache-hit `shutil.copy` failing mid-write returns failure with the
partially written bytes in the target. -/
theorem failed_fetch_changes_published_image :
    (Fallible.fetch_and_save_album_art envMetaFail
        ⟨some [1], some [2]⟩ "x").1.success = false
    ∧ (Fallible.fetch_and_save_album_art envMetaFail
        ⟨some [1], some [2]⟩ "x").2.image = some [9]
    ∧ some [9] ≠ some ([1] : List Nat)
    ∧ (Fallible.fetch_and_save_album_art envCopyFail
        ⟨some [1], some [2]⟩ "x").1.success = false
    ∧ (Fallible.fetch_and_save_album_art envCopyFail
        ⟨some [1], some [2]⟩ "x").2.image = some [5]
    ∧ some [5] ≠ some ([1] : List Nat) := by
  decide

/-- C8 (amended): whenever `fetch_and_save_album_art` returns a failure
result, `current_metadata.json` holds exactly the content it held before
the call; and on every cache-miss path `current_album_art.jpg` is either
unchanged or — only when the image publish succeeded and the subsequent
metadata publish failed — holds exactly the fully-new processed image,
never truncated bytes.  (Only the cache-hit branch's in-place copy can
leave partial image bytes behind a failure result, per the
counterexample; every failure arising before the publish steps leaves
both files unchanged.) -/
theorem failed_fetch_publish_boundary (env : Fallible.FetchEnv)
    (fs : Fallible.PubFS) (term : String)
    (h : (Fallible.fetch_and_save_album_art env fs term).1.success
      = false) :
    (Fallible.fetch_and_save_album_art env fs term).2.metadata
      = fs.metadata
    ∧ (env.cacheHit = none →
        (Fallible.fetch_and_save_album_art env fs term).2.image = fs.image
        ∨ ∃ b, env.processOutcome = Except.ok b
            ∧ env.tmpImageWrite = Except.ok ()
            ∧ env.renameImage = Except.ok ()
            ∧ (Fallible.fetch_and_save_album_art env fs term).2.image
              = some b) := by
  obtain ⟨ch, ac, se, sr, ie, io, dl, pr, cp, co, tiw, ri, tmw, rm⟩ := env
  cases ch with
  | some hit =>
    refine ⟨?_, fun hx => Option.noConfusion hx⟩
    cases co with
    | error w => rfl
    | ok c =>
      cases tmw with
      | error u => rfl
      | ok u =>
        cases rm with
        | error v => rfl
        | ok v =>
          simp [Fallible.fetch_and_save_album_art,
            Fallible.save_metadata_atomic] at h
  | none =>
    cases ac with
    | some api =>
      obtain ⟨md, au⟩ := api
      cases au with
      | none => exact ⟨rfl, fun _ => Or.inl rfl⟩
      | some url =>
        obtain ⟨hm, hi⟩ := download_and_save_boundary _ url md fs h
        exact ⟨hm, fun _ => hi⟩
    | none =>
      cases se with
      | true =>
        cases sr with
        | some r =>
          obtain ⟨md, au⟩ := r
          cases au with
          | none => exact ⟨rfl, fun _ => Or.inl rfl⟩
          | some url =>
            obtain ⟨hm, hi⟩ := download_and_save_boundary _ url md fs h
            exact ⟨hm, fun _ => hi⟩
        | none =>
          cases ie with
          | false => exact ⟨rfl, fun _ => Or.inl rfl⟩
          | true =>
            cases io with
            | error e => exact ⟨rfl, fun _ => Or.inl rfl⟩
            | ok o =>
              cases o with
              | none => exact ⟨rfl, fun _ => Or.inl rfl⟩
              | some r =>
                obtain ⟨md, au⟩ := r
                cases au with
                | none => exact ⟨rfl, fun _ => Or.inl rfl⟩
                | some url =>
                  obtain ⟨hm, hi⟩ :=
                    download_and_save_boundary _ url md fs h
                  exact ⟨hm, fun _ => hi⟩
      | false =>
        cases ie with
        | false => exact ⟨rfl, fun _ => Or.inl rfl⟩
        | true =>
          cases io with
          | error e => exact ⟨rfl, fun _ => Or.inl rfl⟩
          | ok o =>
            cases o with
            | none => exact ⟨rfl, fun _ => Or.inl rfl⟩
            | some r =>
              obtain ⟨md, au⟩ := r
              cases au with
              | none => exact ⟨rfl, fun _ => Or.inl rfl⟩
              | some url =>
                obtain ⟨hm, hi⟩ :=
                  download_and_save_boundary _ url md fs h
                exact ⟨hm, fun _ => hi⟩

/-- Witness for `failed_fetch_publish_boundary` at the boundary case: a
metadata-publish failure after a successful image publish. -/
theorem failed_fetch_publish_boundary_witness :
    (Fallible.fetch_and_save_album_art envMetaFail
        ⟨some [1], some [2]⟩ "x").1.success = false
    ∧ ((Fallible.fetch_and_save_album_art envMetaFail
          ⟨some [1], some [2]⟩ "x").2.metadata
        = (⟨some [1], some [2]⟩ : Fallible.PubFS).metadata
       ∧ (envMetaFail.cacheHit = none →
           (Fallible.fetch_and_save_album_art envMetaFail
               ⟨some [1], some [2]⟩ "x").2.image
             = (⟨some [1], some [2]⟩ : Fallible.PubFS).image
           ∨ ∃ b, envMetaFail.processOutcome = Except.ok b
               ∧ envMetaFail.tmpImageWrite = Except.ok ()
               ∧ envMetaFail.renameImage = Except.ok ()
               ∧ (Fallible.fetch_and_save_album_art envMetaFail
                   ⟨some [1], some [2]⟩ "x").2.image = some b)) :=
  ⟨by decide,
   failed_fetch_publish_boundary envMetaFail ⟨some [1], some [2]⟩ "x"
     (by decide)⟩

end AlbumPi
